import Mathlib

/-!
Verification of the scrobble-fix repository (src/main.rs): a shallow
embedding of the record parser (`Scrobble::new` plus the nom tokenizer
`parse_scrobble_tokens`), the serializer (`impl Display for Scrobble`) and
the timestamp corrector (`Scrobble::fix`), followed by theorems settling
the specification claims.

Modelling conventions:
- Rust `String`/`&str` values are Lean `String`s; all character-level
  reasoning is on `String.data` (tabs are single-byte, so byte-level nom
  combinators and char-level splitting agree).
- Rust `u32`/`i64` are `Nat`/`Int` with explicit range checks where the
  source performs a checked parse.
- `chrono` instants are modelled as Unix epoch seconds (`Int`).  Calendar
  day addition is modelled in a fixed reference offset, where adding `n`
  calendar days adds exactly `n * 86400` seconds (the spec notes that the
  original behaviour under a DST-afflicted local zone is underspecified and
  directs implementers to fix one reference timezone).
- A Rust panic (out-of-bounds index / `Option::unwrap` on `None`) is a
  distinct outcome from a returned `Err` value; the parse result type below
  separates the two.
-/

/- ### Decimal digits: printing and parsing

Models Rust's `u32::to_string` / `i64::to_string` (standard base-10
formatting, `-` sign only) and `str::parse::<u32>` / `str::parse::<i64>`
(optional leading sign, at least one ASCII digit, range-checked). -/

/-- Character for a single decimal digit: ASCII `'0'` (code 48) plus the
digit value (only used with arguments < 10). -/
def digitChar (d : Nat) : Char := Char.ofNat (48 + d)

/-- Numeric value of a decimal digit character: an ASCII range check, as
in Rust's `char::to_digit(10)`. -/
def digitVal (c : Char) : Option Nat :=
  if '0' ≤ c ∧ c ≤ '9' then some (c.toNat - 48) else none

/-- Fuel-indexed most-significant-digit-first decimal printer. -/
def natDigitsAux : Nat → Nat → List Char
  | 0, _ => []
  | fuel + 1, n =>
    if n < 10 then [digitChar n]
    else natDigitsAux fuel (n / 10) ++ [digitChar (n % 10)]

/-- Decimal digits of a natural number, most significant first.
Models Rust's unsigned integer `Display`. -/
def natDigits (n : Nat) : List Char := natDigitsAux (n + 1) n

/-- Decimal character list of an `i64` value.  Models Rust's signed integer
`Display`: a `-` sign for negative values, no `+` sign. -/
def intToChars (i : Int) : List Char :=
  if i < 0 then '-' :: natDigits (-i).toNat else natDigits i.toNat

/-- Accumulator loop of the decimal reader. -/
def parseDigitsAux : List Char → Nat → Option Nat
  | [], acc => some acc
  | c :: cs, acc =>
    match digitVal c with
    | some d => parseDigitsAux cs (acc * 10 + d)
    | none => none

/-- Reads a non-empty all-digit character list as a natural number. -/
def parseDigits : List Char → Option Nat
  | [] => none
  | c :: cs => parseDigitsAux (c :: cs) 0

/-- Models Rust's `str::parse::<u32>`: optional leading `+`, at least one
decimal digit, value must fit in 32 bits. -/
def parseU32 (s : String) : Option Nat :=
  let cs := if s.data.head? = some '+' then s.data.tail else s.data
  match parseDigits cs with
  | some n => if n < 2 ^ 32 then some n else none
  | none => none

/-- Models Rust's `str::parse::<i64>`: optional leading `+` or `-`, at least
one decimal digit, value must fit in a signed 64-bit integer. -/
def parseI64 (s : String) : Option Int :=
  if s.data.head? = some '+' then
    match parseDigits s.data.tail with
    | some n => if n ≤ 2 ^ 63 - 1 then some (n : Int) else none
    | none => none
  else if s.data.head? = some '-' then
    match parseDigits s.data.tail with
    | some n => if n ≤ 2 ^ 63 then some (-(n : Int)) else none
    | none => none
  else
    match parseDigits s.data with
    | some n => if n ≤ 2 ^ 63 - 1 then some (n : Int) else none
    | none => none

/- ### The chrono instant range

`chrono`'s `NaiveDate` covers proleptic-Gregorian years `-262144` to
`262143` (the year field is an `i32` shifted by 13 flag bits), so a
`DateTime` holds instants between `-262144-01-01T00:00:00` and
`262143-12-31T23:59:59` inclusive (second precision here; the wire format
carries whole seconds).  `days_from_civil` is the standard civil-calendar
day count from the Unix epoch, with truncating division exactly as the
algorithm is stated for C++. -/

/-- Days from the Unix epoch (1970-01-01) to the given proleptic-Gregorian
civil date. -/
def days_from_civil (y m d : Int) : Int :=
  let y2 : Int := if m ≤ 2 then y - 1 else y
  let era : Int := Int.tdiv (if 0 ≤ y2 then y2 else y2 - 399) 400
  let yoe : Int := y2 - era * 400
  let doy : Int := Int.tdiv (153 * (if 2 < m then m - 3 else m + 9) + 2) 5 + d - 1
  let doe : Int := yoe * 365 + Int.tdiv yoe 4 - Int.tdiv yoe 100 + doy
  era * 146097 + doe - 719468

/-- Smallest epoch-second instant representable by a chrono `DateTime`. -/
def chronoMinTs : Int := 86400 * days_from_civil (-262144) 1 1

/-- Largest epoch-second instant representable by a chrono `DateTime`. -/
def chronoMaxTs : Int := 86400 * days_from_civil 262143 12 31 + 86399

/-- Whether an epoch-second value is representable as a chrono `DateTime`;
this is the success condition of `TimeZone::timestamp_opt(secs, 0)`. -/
def chronoTsInRange (t : Int) : Bool := chronoMinTs ≤ t && t ≤ chronoMaxTs

/- ### The nom tokenizer -/

/-- Splits a character list at every tab.  The result is never empty; a
list with no tab yields the singleton of the whole input. -/
def splitTabs : List Char → List (List Char)
  | [] => [[]]
  | c :: rest =>
    let ps := splitTabs rest
    if c = '\t' then [] :: ps
    else
      match ps with
      | [] => [[c]]
      | p :: ps2 => (c :: p) :: ps2

/-- Inverse of `splitTabs`: rejoins the pieces with single tabs. -/
def joinTabs : List (List Char) → List Char
  | [] => []
  | [p] => p
  | p :: q :: ps => p ++ '\t' :: joinTabs (q :: ps)

/-- Models `parse_scrobble_tokens`, i.e. nom's
`terminated(separated_list1(tag("\t"), take_until("\t")), tag("\t"))`:

- if the input contains no tab, the first `take_until` fails and the whole
  parser errors (`none` here);
- otherwise the separated list collects every tab-terminated piece (the
  loop stops when, after consuming a separator tab, no further tab can be
  found, and backtracks that separator), and the trailing `tag("\t")`
  consumes the final separator.  The tokens are therefore all
  tab-separated pieces of the line except the last one, and the unconsumed
  rest is the piece after the last tab. -/
def parse_scrobble_tokens (input : String) : Option (List String × String) :=
  match splitTabs input.data with
  | [] => none
  | [_] => none
  | p :: q :: rest =>
    some (((p :: q :: rest).dropLast).map String.mk,
      String.mk ((p :: q :: rest).getLastD []))

/- ### Records -/

/-- Song rating of a scrobble record. -/
inductive Rating
  | listened
  | skipped
  deriving DecidableEq

/-- Wire encoding of a rating; models `impl Display for Rating`. -/
def Rating.toStr : Rating → String
  | .listened => "L"
  | .skipped => "S"

/-- Parsed scrobble record.  `timestamp` holds Unix epoch seconds (the
instant carried by the Rust `DateTime<Local>` field). -/
structure Scrobble where
  artist : String
  album : String
  track : String
  track_position : Option Nat
  song_duration : Nat
  rating : Rating
  timestamp : Int
  track_id : Option String
  deriving DecidableEq

/-- Distinguishes the error paths of `Scrobble::new`.  The Rust code
carries stringly-typed messages; the constructors here record which `?`
site produced the error and its raw payload. -/
inductive NewError
  | tokenizeErr
  | trackPositionErr (raw : String)
  | durationErr (raw : String)
  | ratingErr
  | timestampErr (raw : String)
  deriving DecidableEq

/-- Outcome channel of the parser: a returned error value, or a panic
(out-of-bounds slice index / `unwrap` of `None`), which in Rust aborts
instead of returning. -/
inductive Failure
  | parseError (e : NewError)
  | panicked
  deriving DecidableEq

/-- Decidable equality for `Except` results. -/
def exceptDecEq {ε α : Type} [DecidableEq ε] [DecidableEq α] :
    (a b : Except ε α) → Decidable (a = b)
  | .ok x, .ok y =>
    match decEq x y with
    | isTrue h => isTrue (congrArg Except.ok h)
    | isFalse h => isFalse (fun hc => h (by injection hc))
  | .ok _, .error _ => isFalse (fun hc => Except.noConfusion hc)
  | .error _, .ok _ => isFalse (fun hc => Except.noConfusion hc)
  | .error e, .error f =>
    match decEq e f with
    | isTrue h => isTrue (congrArg Except.error h)
    | isFalse h => isFalse (fun hc => h (by injection hc))

instance {ε α : Type} [DecidableEq ε] [DecidableEq α] : DecidableEq (Except ε α) :=
  exceptDecEq

/- ### The parser `Scrobble::new` -/

/-- Indexing `tokens[i]`: Rust panics when the index is out of bounds. -/
def idx (tokens : List String) (i : Nat) : Except Failure String :=
  match tokens.get? i with
  | some t => .ok t
  | none => .error .panicked

/-- Field 4 decoding: empty means absent, otherwise a checked `u32`. -/
def decodePos (s : String) : Except Failure (Option Nat) :=
  if s = "" then .ok none
  else
    match parseU32 s with
    | some n => .ok (some n)
    | none => .error (.parseError (.trackPositionErr s))

/-- Field 5 decoding: a mandatory checked `u32`. -/
def decodeDuration (s : String) : Except Failure Nat :=
  match parseU32 s with
  | some n => .ok n
  | none => .error (.parseError (.durationErr s))

/-- Field 6 decoding: exactly `"S"` or `"L"`. -/
def decodeRating (s : String) : Except Failure Rating :=
  match s with
  | "S" => .ok .skipped
  | "L" => .ok .listened
  | _ => .error (.parseError .ratingErr)

/-- Field 7 decoding: a checked `i64`, then
`Local.timestamp_opt(secs, 0).unwrap()`, which panics when the instant is
outside chrono's representable range. -/
def decodeTimestamp (s : String) : Except Failure Int :=
  match parseI64 s with
  | some ts => if chronoTsInRange ts then .ok ts else .error .panicked
  | none => .error (.parseError (.timestampErr s))

/-- Trailing remainder: empty means absent. -/
def decodeTrackId (rest : String) : Option String :=
  if rest = "" then none else some rest

/-- Models `Scrobble::new`: tokenize, then decode the fields in the order
the Rust struct literal evaluates them (`tokens[0]` through `tokens[6]`,
each index able to panic, each decode able to short-circuit with an
error). -/
def Scrobble.new (input : String) : Except Failure Scrobble :=
  match parse_scrobble_tokens input with
  | none => .error (.parseError .tokenizeErr)
  | some (tokens, rest) => do
    let artist ← idx tokens 0
    let album ← idx tokens 1
    let track ← idx tokens 2
    let t3 ← idx tokens 3
    let track_position ← decodePos t3
    let t4 ← idx tokens 4
    let song_duration ← decodeDuration t4
    let t5 ← idx tokens 5
    let rating ← decodeRating t5
    let t6 ← idx tokens 6
    let timestamp ← decodeTimestamp t6
    .ok { artist, album, track, track_position, song_duration, rating,
          timestamp, track_id := decodeTrackId rest }

/- ### The serializer (`impl Display for Scrobble`) -/

/-- Models `impl Display for Scrobble`: the eight field renderings
interspersed with single tabs and concatenated. -/
def Scrobble.serialize (s : Scrobble) : String :=
  String.join (List.intersperse "\t"
    [s.artist, s.album, s.track,
     (match s.track_position with
      | none => ""
      | some p => String.mk (natDigits p)),
     String.mk (natDigits s.song_duration),
     s.rating.toStr,
     String.mk (intToChars s.timestamp),
     (match s.track_id with
      | none => ""
      | some id => id)])

/- ### The corrector `Scrobble::fix` -/

/-- Number of days to add to the suspicious scrobbles
(`SCROBBLE_DAYS_OFFSET` in the source). -/
def SCROBBLE_DAYS_OFFSET : Nat := 365 * 22 + 215

/-- Epoch seconds of the cutoff `2005-01-01T00:00:00Z`
(`SCROBBLE_CUTOFF` parsed by `parse_from_rfc3339` in `main`). -/
def SCROBBLE_CUTOFF_TS : Int := 86400 * days_from_civil 2005 1 1

/-- Models chrono's `DateTime::checked_add_days` in a fixed reference
offset: adding `days` calendar days advances the instant by exactly
`days * 86400` seconds, and fails when the result leaves chrono's
representable range. -/
def checked_add_days (ts : Int) (days : Nat) : Option Int :=
  let t := ts + (days : Int) * 86400
  if chronoTsInRange t then some t else none

/-- Models `Scrobble::fix`: records strictly newer than the cutoff are
returned unchanged; otherwise the day offset is applied, failing with the
source's error string when the addition is not representable. -/
def Scrobble.fix (s : Scrobble) (cutoff : Int) : Except String Scrobble :=
  if cutoff < s.timestamp then .ok s
  else
    match checked_add_days s.timestamp SCROBBLE_DAYS_OFFSET with
    | some t => .ok { s with timestamp := t }
    | none => .error "failed to apply offset"

/-- Invariants every record produced by `Scrobble::new` satisfies (the Rust
field types `u32` and `DateTime<Local>` enforce the numeric ones, the
tokenizer the textual ones). -/
def Wf (r : Scrobble) : Prop :=
  '\t' ∉ r.artist.data ∧ '\t' ∉ r.album.data ∧ '\t' ∉ r.track.data ∧
  (∀ p, r.track_position = some p → p < 2 ^ 32) ∧
  r.song_duration < 2 ^ 32 ∧
  chronoTsInRange r.timestamp = true ∧
  (∀ id, r.track_id = some id → id ≠ "" ∧ '\t' ∉ id.data)

/-! ## Lemmas about decimal printing and parsing -/

theorem digitVal_digitChar (d : Nat) (h : d < 10) : digitVal (digitChar d) = some d := by
  interval_cases d <;> decide

theorem natDigitsAux_ne_nil (fuel n : Nat) (h : n < fuel) : natDigitsAux fuel n ≠ [] := by
  cases fuel with
  | zero => omega
  | succ fuel =>
    simp only [natDigitsAux]
    split
    · simp
    · simp

theorem natDigits_ne_nil (n : Nat) : natDigits n ≠ [] :=
  natDigitsAux_ne_nil (n + 1) n (Nat.lt_succ_self n)

theorem mem_natDigitsAux_digit (fuel : Nat) :
    ∀ n, n < fuel → ∀ c ∈ natDigitsAux fuel n, (digitVal c).isSome := by
  induction fuel with
  | zero => intro n h; omega
  | succ fuel ih =>
    intro n _ c hc
    simp only [natDigitsAux] at hc
    by_cases h10 : n < 10
    · rw [if_pos h10] at hc
      simp only [List.mem_singleton] at hc
      subst hc
      rw [digitVal_digitChar n h10]
      rfl
    · rw [if_neg h10] at hc
      rcases List.mem_append.mp hc with h1 | h2
      · exact ih (n / 10) (by omega) c h1
      · simp only [List.mem_singleton] at h2
        subst h2
        rw [digitVal_digitChar (n % 10) (Nat.mod_lt n (by omega))]
        rfl

theorem mem_natDigits_digit (n : Nat) : ∀ c ∈ natDigits n, (digitVal c).isSome :=
  mem_natDigitsAux_digit (n + 1) n (Nat.lt_succ_self n)

theorem natDigits_tab_free (n : Nat) : '\t' ∉ natDigits n := by
  intro h
  have := mem_natDigits_digit n '\t' h
  exact absurd this (by decide)

theorem parseDigitsAux_append (xs ys : List Char) (a : Nat) :
    parseDigitsAux (xs ++ ys) a =
      match parseDigitsAux xs a with
      | some b => parseDigitsAux ys b
      | none => none := by
  induction xs generalizing a with
  | nil => simp [parseDigitsAux]
  | cons c cs ih =>
    simp only [List.cons_append, parseDigitsAux]
    cases digitVal c with
    | none => simp
    | some d => simp [ih]

theorem parseDigitsAux_natDigitsAux (fuel : Nat) :
    ∀ n a, n < fuel →
      parseDigitsAux (natDigitsAux fuel n) a
        = some (a * 10 ^ (natDigitsAux fuel n).length + n) := by
  induction fuel with
  | zero => intro n a h; omega
  | succ fuel ih =>
    intro n a _
    simp only [natDigitsAux]
    by_cases h10 : n < 10
    · rw [if_pos h10]
      simp [parseDigitsAux, digitVal_digitChar n h10]
    · rw [if_neg h10]
      rw [parseDigitsAux_append]
      rw [ih (n / 10) a (by omega)]
      simp only [parseDigitsAux, digitVal_digitChar (n % 10) (Nat.mod_lt n (by omega))]
      have hlen : (natDigitsAux fuel (n / 10) ++ [digitChar (n % 10)]).length
          = (natDigitsAux fuel (n / 10)).length + 1 := by simp
      rw [hlen, pow_succ]
      congr 1
      generalize (10 : Nat) ^ (natDigitsAux fuel (n / 10)).length = K
      have expand : (a * K + n / 10) * 10 + n % 10
          = a * (K * 10) + (10 * (n / 10) + n % 10) := by ring
      rw [expand, Nat.div_add_mod]

theorem parseDigits_natDigits (n : Nat) : parseDigits (natDigits n) = some n := by
  have key := parseDigitsAux_natDigitsAux (n + 1) n 0 (Nat.lt_succ_self n)
  obtain ⟨c, cs, hcs⟩ := List.exists_cons_of_ne_nil (natDigits_ne_nil n)
  unfold natDigits at hcs
  simp only [parseDigits, natDigits, hcs] at key ⊢
  rw [key]
  simp

theorem natDigits_head_digit (n : Nat) :
    ∃ c cs, natDigits n = c :: cs ∧ (digitVal c).isSome := by
  obtain ⟨c, cs, hcs⟩ := List.exists_cons_of_ne_nil (natDigits_ne_nil n)
  exact ⟨c, cs, hcs, mem_natDigits_digit n c (by rw [hcs]; simp)⟩

theorem parseU32_natDigits (p : Nat) (hp : p < 2 ^ 32) :
    parseU32 (String.mk (natDigits p)) = some p := by
  obtain ⟨c, cs, hcs, hdig⟩ := natDigits_head_digit p
  have hplus : c ≠ '+' := by
    intro h
    rw [h] at hdig
    exact absurd hdig (by decide)
  simp only [parseU32, hcs, List.head?]
  rw [if_neg (by simp [hplus])]
  rw [← hcs, parseDigits_natDigits p]
  simp
  omega

theorem parseU32_lt (s : String) (n : Nat) (h : parseU32 s = some n) : n < 2 ^ 32 := by
  unfold parseU32 at h
  rcases hd : parseDigits (if s.data.head? = some '+' then s.data.tail else s.data) with _ | m <;>
    simp only [hd] at h
  · exact absurd h (by simp)
  · split at h
    · injection h with h2
      omega
    · exact absurd h (by simp)

theorem intToChars_tab_free (i : Int) : '\t' ∉ intToChars i := by
  unfold intToChars
  split
  · intro h
    rcases List.mem_cons.mp h with h1 | h2
    · exact absurd h1 (by decide)
    · exact natDigits_tab_free _ h2
  · exact natDigits_tab_free _

theorem parseI64_intToChars (i : Int) (hlo : -(2 ^ 63) ≤ i) (hhi : i ≤ 2 ^ 63 - 1) :
    parseI64 (String.mk (intToChars i)) = some i := by
  unfold parseI64 intToChars
  by_cases hneg : i < 0
  · rw [if_pos hneg]
    simp only [List.head?, List.tail]
    rw [if_pos trivial]
    rw [parseDigits_natDigits]
    have htn : ((-i).toNat : Int) = -i := Int.toNat_of_nonneg (by omega)
    show (if (-i).toNat ≤ 2 ^ 63 then some (-(((-i).toNat : Int))) else none) = some i
    rw [if_pos (by omega), htn]
    simp
  · rw [if_neg hneg]
    obtain ⟨c, cs, hcs, hdig⟩ := natDigits_head_digit i.toNat
    have hplus : c ≠ '+' := by
      intro h; rw [h] at hdig; exact absurd hdig (by decide)
    have hminus : c ≠ '-' := by
      intro h; rw [h] at hdig; exact absurd hdig (by decide)
    simp only [hcs, List.head?]
    rw [if_neg (by simp [hplus]), if_neg (by simp [hminus])]
    rw [← hcs, parseDigits_natDigits]
    have htn : (i.toNat : Int) = i := Int.toNat_of_nonneg (by omega)
    show (if i.toNat ≤ 2 ^ 63 - 1 then some ((i.toNat : Int)) else none) = some i
    rw [if_pos (by omega), htn]

/-! ## Lemmas about the field decoders -/

theorem string_mk_data (s : String) : String.mk s.data = s := rfl

theorem mk_natDigits_ne_empty (n : Nat) : String.mk (natDigits n) ≠ "" := by
  intro h
  have : (String.mk (natDigits n)).data = ("" : String).data := by rw [h]
  exact natDigits_ne_nil n this

theorem decodePos_natDigits (p : Nat) (hp : p < 2 ^ 32) :
    decodePos (String.mk (natDigits p)) = .ok (some p) := by
  unfold decodePos
  rw [if_neg (mk_natDigits_ne_empty p), parseU32_natDigits p hp]

theorem decodePos_ok_inv (s : String) (o : Option Nat) (h : decodePos s = .ok o) :
    ∀ p, o = some p → p < 2 ^ 32 := by
  intro p hp
  unfold decodePos at h
  split at h
  · injection h with h2; rw [hp] at h2; exact absurd h2 (by simp)
  · rcases hu : parseU32 s with _ | n <;> simp only [hu] at h
    · exact absurd h (by simp)
    · injection h with h2
      rw [hp] at h2
      injection h2 with h3
      rw [← h3]
      exact parseU32_lt s n hu

theorem decodeDuration_natDigits (d : Nat) (hd : d < 2 ^ 32) :
    decodeDuration (String.mk (natDigits d)) = .ok d := by
  unfold decodeDuration
  rw [parseU32_natDigits d hd]

theorem decodeDuration_ok_inv (s : String) (d : Nat) (h : decodeDuration s = .ok d) :
    d < 2 ^ 32 := by
  unfold decodeDuration at h
  rcases hu : parseU32 s with _ | n <;> simp only [hu] at h
  · exact absurd h (by simp)
  · injection h with h2
    rw [← h2]
    exact parseU32_lt s n hu

theorem decodeRating_toStr (r : Rating) : decodeRating r.toStr = .ok r := by
  cases r <;> rfl

theorem decodeRating_ok_inv (s : String) (r : Rating) (h : decodeRating s = .ok r) :
    (s = "L" ∧ r = .listened) ∨ (s = "S" ∧ r = .skipped) := by
  unfold decodeRating at h
  split at h
  · right; exact ⟨rfl, by injection h with h2; exact h2.symm⟩
  · left; exact ⟨rfl, by injection h with h2; exact h2.symm⟩
  · exact absurd h (by simp)

theorem rating_toStr_tab_free (r : Rating) : '\t' ∉ r.toStr.data := by
  cases r <;> decide

theorem decodeTimestamp_intToChars (t : Int) (h : chronoTsInRange t = true) :
    decodeTimestamp (String.mk (intToChars t)) = .ok t := by
  have hb : chronoMinTs ≤ t ∧ t ≤ chronoMaxTs := by
    simpa [chronoTsInRange] using h
  have hlo : -(2 ^ 63) ≤ t := by
    have : -(2 ^ 63) ≤ chronoMinTs := by decide
    omega
  have hhi : t ≤ 2 ^ 63 - 1 := by
    have : chronoMaxTs ≤ 2 ^ 63 - 1 := by decide
    omega
  unfold decodeTimestamp
  rw [parseI64_intToChars t hlo hhi]
  show (if chronoTsInRange t = true then Except.ok t else Except.error Failure.panicked)
      = Except.ok t
  rw [if_pos h]

theorem decodeTimestamp_ok_inv (s : String) (t : Int) (h : decodeTimestamp s = .ok t) :
    chronoTsInRange t = true := by
  unfold decodeTimestamp at h
  rcases hp : parseI64 s with _ | v <;> simp only [hp] at h
  · exact absurd h (by simp)
  · split at h
    · injection h with h2
      rw [← h2]
      assumption
    · exact absurd h (by simp)

/-! ## Lemmas about the tokenizer -/

theorem splitTabs_ne_nil (cs : List Char) : splitTabs cs ≠ [] := by
  cases cs with
  | nil => simp [splitTabs]
  | cons c rest =>
    simp only [splitTabs]
    split
    · simp
    · cases h : splitTabs rest <;> simp

theorem mem_splitTabs_tab_free (cs : List Char) : ∀ p ∈ splitTabs cs, '\t' ∉ p := by
  induction cs with
  | nil =>
    intro p hp
    simp [splitTabs] at hp
    simp [hp]
  | cons c rest ih =>
    intro p hp
    simp only [splitTabs] at hp
    by_cases hc : c = '\t'
    · rw [if_pos hc] at hp
      rcases List.mem_cons.mp hp with h1 | h2
      · simp [h1]
      · exact ih p h2
    · rw [if_neg hc] at hp
      cases hsp : splitTabs rest with
      | nil => exact absurd hsp (splitTabs_ne_nil rest)
      | cons q qs =>
        rw [hsp] at hp
        rcases List.mem_cons.mp hp with h1 | h2
        · subst h1
          intro hmem
          rcases List.mem_cons.mp hmem with h3 | h4
          · exact hc h3.symm
          · exact ih q (by rw [hsp]; exact List.mem_cons_self q qs) h4
        · exact ih p (by rw [hsp]; exact List.mem_cons_of_mem q h2)

theorem splitTabs_of_tab_free (cs : List Char) (h : '\t' ∉ cs) : splitTabs cs = [cs] := by
  induction cs with
  | nil => rfl
  | cons c rest ih =>
    have hc : c ≠ '\t' := fun hx => h (by rw [hx]; exact List.mem_cons_self _ _)
    have hrest : '\t' ∉ rest := fun hx => h (List.mem_cons_of_mem c hx)
    simp only [splitTabs]
    rw [if_neg hc, ih hrest]

theorem splitTabs_append (xs ys : List Char) (h : '\t' ∉ xs) :
    splitTabs (xs ++ '\t' :: ys) = xs :: splitTabs ys := by
  induction xs with
  | nil => simp [splitTabs]
  | cons x xs ih =>
    have hx : x ≠ '\t' := fun hx => h (by rw [hx]; exact List.mem_cons_self _ _)
    have hxs : '\t' ∉ xs := fun hx => h (List.mem_cons_of_mem x hx)
    have ih2 : splitTabs (xs.append ('\t' :: ys)) = xs :: splitTabs ys := ih hxs
    simp only [List.cons_append, splitTabs]
    rw [if_neg hx, ih2]

theorem joinTabs_splitTabs (cs : List Char) : joinTabs (splitTabs cs) = cs := by
  induction cs with
  | nil => rfl
  | cons c rest ih =>
    simp only [splitTabs]
    by_cases hc : c = '\t'
    · rw [if_pos hc]
      obtain ⟨q, qs, hq⟩ := List.exists_cons_of_ne_nil (splitTabs_ne_nil rest)
      rw [hq]
      show [] ++ '\t' :: joinTabs (q :: qs) = c :: rest
      rw [← hq, ih, hc]
      rfl
    · rw [if_neg hc]
      cases hsp : splitTabs rest with
      | nil => exact absurd hsp (splitTabs_ne_nil rest)
      | cons q qs =>
        rw [hsp] at ih
        cases qs with
        | nil =>
          show c :: q = c :: rest
          rw [show joinTabs [q] = q from rfl] at ih
          rw [ih]
        | cons q2 qs2 =>
          show (c :: q) ++ '\t' :: joinTabs (q2 :: qs2) = c :: rest
          rw [show joinTabs (q :: q2 :: qs2) = q ++ '\t' :: joinTabs (q2 :: qs2) from rfl] at ih
          simp only [List.cons_append]
          rw [ih]

theorem joinTabs_append_last (init : List (List Char)) (r : List Char) (h : init ≠ []) :
    ∃ pre, joinTabs (init ++ [r]) = pre ++ '\t' :: r := by
  induction init with
  | nil => exact absurd rfl h
  | cons x xs ih =>
    cases xs with
    | nil => exact ⟨x, rfl⟩
    | cons y ys =>
      obtain ⟨pre0, hpre0⟩ := ih (by simp)
      refine ⟨x ++ '\t' :: pre0, ?_⟩
      show x ++ '\t' :: joinTabs (y :: ys ++ [r]) = (x ++ '\t' :: pre0) ++ '\t' :: r
      rw [hpre0]
      simp

theorem getLastD_mem (ps : List (List Char)) (h : ps ≠ []) : ps.getLastD [] ∈ ps := by
  induction ps with
  | nil => exact absurd rfl h
  | cons x xs ih =>
    cases xs with
    | nil => simp
    | cons y ys => exact List.mem_cons_of_mem x (ih (by simp))

theorem string_data_append (a b : String) : (a ++ b).data = a.data ++ b.data := rfl

theorem serialize_data (r : Scrobble) :
    (Scrobble.serialize r).data
      = r.artist.data ++ '\t' :: (r.album.data ++ '\t' :: (r.track.data ++ '\t' ::
          ((match r.track_position with
            | none => []
            | some p => natDigits p) ++ '\t' ::
            (natDigits r.song_duration ++ '\t' :: (r.rating.toStr.data ++ '\t' ::
              (intToChars r.timestamp ++ '\t' ::
                (match r.track_id with
                 | none => []
                 | some id => id.data))))))) := by
  cases hp : r.track_position <;> cases hid : r.track_id <;>
    simp [Scrobble.serialize, hp, hid, String.join, string_data_append, List.append_assoc,
      List.intersperse]

theorem parse_scrobble_tokens_of_data (input : String) (f1 f2 f3 f4 f5 f6 f7 f8 : List Char)
    (hdata : input.data
      = f1 ++ '\t' :: (f2 ++ '\t' :: (f3 ++ '\t' :: (f4 ++ '\t' :: (f5 ++ '\t' ::
          (f6 ++ '\t' :: (f7 ++ '\t' :: f8)))))))
    (h1 : '\t' ∉ f1) (h2 : '\t' ∉ f2) (h3 : '\t' ∉ f3) (h4 : '\t' ∉ f4)
    (h5 : '\t' ∉ f5) (h6 : '\t' ∉ f6) (h7 : '\t' ∉ f7) (h8 : '\t' ∉ f8) :
    parse_scrobble_tokens input
      = some ([String.mk f1, String.mk f2, String.mk f3, String.mk f4, String.mk f5,
               String.mk f6, String.mk f7], String.mk f8) := by
  unfold parse_scrobble_tokens
  rw [hdata, splitTabs_append _ _ h1, splitTabs_append _ _ h2, splitTabs_append _ _ h3,
    splitTabs_append _ _ h4, splitTabs_append _ _ h5, splitTabs_append _ _ h6,
    splitTabs_append _ _ h7, splitTabs_of_tab_free _ h8]
  rfl

theorem except_ok_bind {α β : Type} (a : α) (f : α → Except Failure β) :
    (Except.ok a >>= f) = f a := rfl

theorem except_bind_ok {α β : Type} (res : Except Failure α) (k : α → Except Failure β)
    (out : β) (h : (res >>= k) = Except.ok out) :
    ∃ mid, res = Except.ok mid ∧ k mid = Except.ok out := by
  rcases res with e | val
  · exact absurd h (fun hc => Except.noConfusion hc)
  · exact ⟨val, rfl, h⟩

theorem idx_ok_inv (tokens : List String) (i : Nat) (t : String) (h : idx tokens i = .ok t) :
    tokens.get? i = some t := by
  unfold idx at h
  cases hg : tokens.get? i <;> rw [hg] at h
  · exact absurd h (by simp)
  · injection h with h2
    rw [h2]

theorem parse_scrobble_tokens_inv (L : String) (toks : List String) (rest : String)
    (h : parse_scrobble_tokens L = some (toks, rest)) :
    2 ≤ (splitTabs L.data).length ∧
    toks = ((splitTabs L.data).dropLast).map String.mk ∧
    rest = String.mk ((splitTabs L.data).getLastD []) := by
  unfold parse_scrobble_tokens at h
  cases hs : splitTabs L.data with
  | nil => rw [hs] at h; exact absurd h (by simp)
  | cons p t =>
    cases t with
    | nil => rw [hs] at h; exact absurd h (by simp)
    | cons q rs =>
      rw [hs] at h
      injection h with h2
      injection h2 with ha hb
      exact ⟨by simp, ha.symm, hb.symm⟩

theorem new_ok_inv {L : String} {r : Scrobble} (h : Scrobble.new L = .ok r) :
    ∃ toks rest, parse_scrobble_tokens L = some (toks, rest) ∧
      toks.get? 0 = some r.artist ∧ toks.get? 1 = some r.album ∧
      toks.get? 2 = some r.track ∧
      (∃ t3, toks.get? 3 = some t3 ∧ decodePos t3 = .ok r.track_position) ∧
      (∃ t4, toks.get? 4 = some t4 ∧ decodeDuration t4 = .ok r.song_duration) ∧
      (∃ t5, toks.get? 5 = some t5 ∧ decodeRating t5 = .ok r.rating) ∧
      (∃ t6, toks.get? 6 = some t6 ∧ decodeTimestamp t6 = .ok r.timestamp) ∧
      r.track_id = decodeTrackId rest := by
  unfold Scrobble.new at h
  cases hp : parse_scrobble_tokens L with
  | none => rw [hp] at h; exact absurd h (by simp)
  | some pr =>
    obtain ⟨toks, rest⟩ := pr
    rw [hp] at h
    obtain ⟨a0, h0, h⟩ := except_bind_ok _ _ _ h
    obtain ⟨a1, h1, h⟩ := except_bind_ok _ _ _ h
    obtain ⟨a2, h2, h⟩ := except_bind_ok _ _ _ h
    obtain ⟨a3, h3, h⟩ := except_bind_ok _ _ _ h
    obtain ⟨apos, hdp, h⟩ := except_bind_ok _ _ _ h
    obtain ⟨a4, h4, h⟩ := except_bind_ok _ _ _ h
    obtain ⟨adur, hdd, h⟩ := except_bind_ok _ _ _ h
    obtain ⟨a5, h5, h⟩ := except_bind_ok _ _ _ h
    obtain ⟨arat, hdr, h⟩ := except_bind_ok _ _ _ h
    obtain ⟨a6, h6, h⟩ := except_bind_ok _ _ _ h
    obtain ⟨ats, hdt, h⟩ := except_bind_ok _ _ _ h
    injection h with hrec
    subst hrec
    exact ⟨toks, rest, rfl,
      idx_ok_inv _ _ _ h0, idx_ok_inv _ _ _ h1, idx_ok_inv _ _ _ h2,
      ⟨a3, idx_ok_inv _ _ _ h3, hdp⟩,
      ⟨a4, idx_ok_inv _ _ _ h4, hdd⟩,
      ⟨a5, idx_ok_inv _ _ _ h5, hdr⟩,
      ⟨a6, idx_ok_inv _ _ _ h6, hdt⟩, rfl⟩

theorem mem_of_mem_dropLast {α : Type} {l : List α} {a : α} (h : a ∈ l.dropLast) : a ∈ l :=
  (List.dropLast_sublist _).subset h

theorem new_ok_wf {L : String} {r : Scrobble} (h : Scrobble.new L = .ok r) : Wf r := by
  obtain ⟨toks, rest, hp, h0, h1, h2, ⟨t3, h3, hdp⟩, ⟨t4, h4, hdd⟩, ⟨t5, h5, hdr⟩,
    ⟨t6, h6, hdt⟩, hid⟩ := new_ok_inv h
  obtain ⟨hlen, htoks, hrest⟩ := parse_scrobble_tokens_inv L toks rest hp
  have parts_ne : splitTabs L.data ≠ [] := splitTabs_ne_nil _
  have tok_tab_free : ∀ i t, toks.get? i = some t → '	' ∉ t.data := by
    intro i t hg
    have hmem : t ∈ toks := List.get?_mem hg
    rw [htoks] at hmem
    obtain ⟨p, hpmem, hpe⟩ := List.mem_map.mp hmem
    rw [← hpe]
    exact mem_splitTabs_tab_free _ p (mem_of_mem_dropLast hpmem)
  refine ⟨tok_tab_free 0 _ h0, tok_tab_free 1 _ h1, tok_tab_free 2 _ h2,
    decodePos_ok_inv _ _ hdp, decodeDuration_ok_inv _ _ hdd, decodeTimestamp_ok_inv _ _ hdt, ?_⟩
  intro id hid2
  rw [hid] at hid2
  unfold decodeTrackId at hid2
  split at hid2
  · exact absurd hid2 (by simp)
  · injection hid2 with hre
    subst hre
    refine ⟨by assumption, ?_⟩
    rw [hrest]
    exact mem_splitTabs_tab_free _ _ (getLastD_mem _ parts_ne)

theorem roundtrip_of_wf (r : Scrobble) (h : Wf r) :
    Scrobble.new (Scrobble.serialize r) = .ok r := by
  obtain ⟨ha, hb, hc, hpos, hdur, hts, hid⟩ := h
  have hptf : '	' ∉ (match r.track_position with
      | none => ([] : List Char)
      | some p => natDigits p) := by
    cases r.track_position with
    | none => simp
    | some p => exact natDigits_tab_free p
  have hitf : '	' ∉ (match r.track_id with
      | none => ([] : List Char)
      | some id => id.data) := by
    cases hi : r.track_id with
    | none => simp
    | some id => exact (hid id hi).2
  have hparse := parse_scrobble_tokens_of_data (Scrobble.serialize r)
    r.artist.data r.album.data r.track.data _ (natDigits r.song_duration)
    r.rating.toStr.data (intToChars r.timestamp) _
    (serialize_data r) ha hb hc hptf (natDigits_tab_free _) (rating_toStr_tab_free r.rating)
    (intToChars_tab_free _) hitf
  have hdp : decodePos (String.mk (match r.track_position with
      | none => ([] : List Char)
      | some p => natDigits p)) = .ok r.track_position := by
    cases hp2 : r.track_position with
    | none => rfl
    | some p => exact decodePos_natDigits p (hpos p hp2)
  have hdi : decodeTrackId (String.mk (match r.track_id with
      | none => ([] : List Char)
      | some id => id.data)) = r.track_id := by
    cases hi2 : r.track_id with
    | none => rfl
    | some id =>
      show decodeTrackId (String.mk id.data) = some id
      rw [string_mk_data]
      unfold decodeTrackId
      rw [if_neg (hid id hi2).1]
  unfold Scrobble.new
  rw [hparse]
  simp only [string_mk_data]
  simp only [idx, List.get?, except_ok_bind]
  rw [hdp]
  simp only [except_ok_bind]
  rw [decodeDuration_natDigits _ hdur]
  simp only [except_ok_bind]
  rw [decodeRating_toStr]
  simp only [except_ok_bind]
  rw [decodeTimestamp_intToChars _ hts]
  simp only [except_ok_bind]
  rw [hdi]

theorem getLastD_eq_getLast (ps : List (List Char)) (h : ps ≠ []) :
    ps.getLastD [] = ps.getLast h := by
  induction ps with
  | nil => exact absurd rfl h
  | cons x xs ih =>
    cases xs with
    | nil => rfl
    | cons y ys => exact ih (by simp)

theorem checked_add_days_some (ts : Int) (days : Nat)
    (h : chronoTsInRange (ts + (days : Int) * 86400) = true) :
    checked_add_days ts days = some (ts + (days : Int) * 86400) := by
  unfold checked_add_days
  rw [if_pos h]

theorem checked_add_days_none (ts : Int) (days : Nat)
    (h : chronoTsInRange (ts + (days : Int) * 86400) = false) :
    checked_add_days ts days = none := by
  unfold checked_add_days
  rw [if_neg (by simp [h])]

/-- C3: a record with timestamp strictly before the cutoff comes back with
the timestamp advanced by exactly 8245 days (8245 · 86400 seconds in the
fixed reference offset), all other fields unchanged; and whenever the day
addition leaves the representable instant range, `fix` fails with the
offset-overflow error instead. -/
theorem fix_advances_before_cutoff :
    SCROBBLE_DAYS_OFFSET = 8245 ∧
    (∀ r : Scrobble, chronoTsInRange r.timestamp = true →
      r.timestamp < SCROBBLE_CUTOFF_TS →
      Scrobble.fix r SCROBBLE_CUTOFF_TS
        = .ok { r with timestamp := r.timestamp + 8245 * 86400 }) ∧
    (∀ (r : Scrobble) (cutoff : Int), ¬ cutoff < r.timestamp →
      chronoTsInRange (r.timestamp + (SCROBBLE_DAYS_OFFSET : Int) * 86400) = false →
      Scrobble.fix r cutoff = .error "failed to apply offset") := by
  refine ⟨by decide, ?_, ?_⟩
  · intro r hr hlt
    have hb : chronoMinTs ≤ r.timestamp ∧ r.timestamp ≤ chronoMaxTs := by
      simpa [chronoTsInRange] using hr
    have hOFF : (SCROBBLE_DAYS_OFFSET : Int) * 86400 = 712368000 := by decide
    have hC : SCROBBLE_CUTOFF_TS = 1104537600 := by decide
    have hM : chronoMaxTs = 8210298412799 := by decide
    have hm : chronoMinTs = -8334632851200 := by decide
    have hin : chronoTsInRange (r.timestamp + (SCROBBLE_DAYS_OFFSET : Int) * 86400) = true := by
      simp only [chronoTsInRange, Bool.and_eq_true, decide_eq_true_eq]
      omega
    unfold Scrobble.fix
    rw [if_neg (by omega), checked_add_days_some _ _ hin]
    have h2 : (SCROBBLE_DAYS_OFFSET : Int) * 86400 = 8245 * 86400 := by decide
    rw [h2]
  · intro r cutoff hle hof
    unfold Scrobble.fix
    rw [if_neg hle, checked_add_days_none _ _ hof]

/-- Witness for C3, the spec's end-to-end example: epoch 978307200
(2001-01-01T00:00:00Z) is advanced to 978307200 + 8245·86400. -/
theorem fix_advances_before_cutoff_witness :
    Scrobble.fix ⟨"Artist", "Album", "Track", some 3, 215, .listened, 978307200, some "abc123"⟩
        SCROBBLE_CUTOFF_TS
      = .ok ⟨"Artist", "Album", "Track", some 3, 215, .listened, 978307200 + 8245 * 86400,
          some "abc123"⟩ :=
  fix_advances_before_cutoff.2.1 _ (by decide) (by decide)

/-- C1 (violated by the code): `fix` tests `timestamp > cutoff`, not
`timestamp >= cutoff`, so a record whose timestamp equals the cutoff
instant is shifted by 8245 days instead of being returned unchanged. -/
theorem fix_shifts_record_at_cutoff :
    Scrobble.fix ⟨"a", "b", "c", none, 215, .listened, SCROBBLE_CUTOFF_TS, none⟩ SCROBBLE_CUTOFF_TS
      = .ok ⟨"a", "b", "c", none, 215, .listened, SCROBBLE_CUTOFF_TS + 8245 * 86400, none⟩ ∧
    Scrobble.fix ⟨"a", "b", "c", none, 215, .listened, SCROBBLE_CUTOFF_TS, none⟩ SCROBBLE_CUTOFF_TS
      ≠ .ok ⟨"a", "b", "c", none, 215, .listened, SCROBBLE_CUTOFF_TS, none⟩ := by
  decide

/-- C2 (violated by the code): a line with five tab-separated fields whose
first four decode cleanly makes `Scrobble::new` panic with an
out-of-bounds index at `tokens[4]` (only four tab-terminated tokens
exist), instead of returning a truncated-record error value. -/
theorem new_panics_on_truncated_line :
    Scrobble.new "a\tb\tc\t4\t215" = .error Failure.panicked := by decide

/-- C4 (violated by the code): correction is not idempotent.  A record at
epoch 0 is shifted to 712368000, which is still before the cutoff, so a
second pass shifts it again. -/
theorem fix_not_idempotent_at_epoch :
    ((Scrobble.fix ⟨"a", "b", "c", none, 215, .listened, 0, none⟩ SCROBBLE_CUTOFF_TS).bind
        (fun s => Scrobble.fix s SCROBBLE_CUTOFF_TS))
      ≠ Scrobble.fix ⟨"a", "b", "c", none, 215, .listened, 0, none⟩ SCROBBLE_CUTOFF_TS := by
  decide

/-- C4 amended: correction with the program's cutoff is idempotent for
every record whose timestamp lies less than 8245 days before the cutoff
(or after it); only records older than cutoff − 8245 days are shifted
twice. -/
theorem fix_idempotent_within_offset_window :
    ∀ r : Scrobble, SCROBBLE_CUTOFF_TS - (SCROBBLE_DAYS_OFFSET : Int) * 86400 < r.timestamp →
      (Scrobble.fix r SCROBBLE_CUTOFF_TS).bind (fun s => Scrobble.fix s SCROBBLE_CUTOFF_TS)
        = Scrobble.fix r SCROBBLE_CUTOFF_TS := by
  intro r hr
  have hC : SCROBBLE_CUTOFF_TS = 1104537600 := by decide
  have hOFF : (SCROBBLE_DAYS_OFFSET : Int) * 86400 = 712368000 := by decide
  by_cases hgt : SCROBBLE_CUTOFF_TS < r.timestamp
  · have h1 : Scrobble.fix r SCROBBLE_CUTOFF_TS = .ok r := by
      unfold Scrobble.fix
      rw [if_pos hgt]
    rw [h1]
    show Scrobble.fix r SCROBBLE_CUTOFF_TS = Except.ok r
    exact h1
  · have hm : chronoMinTs = -8334632851200 := by decide
    have hM : chronoMaxTs = 8210298412799 := by decide
    have hin : chronoTsInRange (r.timestamp + (SCROBBLE_DAYS_OFFSET : Int) * 86400) = true := by
      simp only [chronoTsInRange, Bool.and_eq_true, decide_eq_true_eq]
      omega
    have h1 : Scrobble.fix r SCROBBLE_CUTOFF_TS
        = .ok { r with timestamp := r.timestamp + (SCROBBLE_DAYS_OFFSET : Int) * 86400 } := by
      unfold Scrobble.fix
      rw [if_neg hgt, checked_add_days_some _ _ hin]
    rw [h1]
    show Scrobble.fix { r with timestamp := r.timestamp + (SCROBBLE_DAYS_OFFSET : Int) * 86400 }
        SCROBBLE_CUTOFF_TS
      = Except.ok { r with timestamp := r.timestamp + (SCROBBLE_DAYS_OFFSET : Int) * 86400 }
    unfold Scrobble.fix
    rw [if_pos (show SCROBBLE_CUTOFF_TS
      < ({ r with timestamp := r.timestamp + (SCROBBLE_DAYS_OFFSET : Int) * 86400 } :
          Scrobble).timestamp by show SCROBBLE_CUTOFF_TS
        < r.timestamp + (SCROBBLE_DAYS_OFFSET : Int) * 86400; omega)]

/-- Witness for C4's amended claim at a record sitting exactly on the
cutoff. -/
theorem fix_idempotent_within_offset_window_witness :
    (Scrobble.fix ⟨"a", "b", "c", none, 215, .listened, 1104537600, none⟩ SCROBBLE_CUTOFF_TS).bind
        (fun s => Scrobble.fix s SCROBBLE_CUTOFF_TS)
      = Scrobble.fix ⟨"a", "b", "c", none, 215, .listened, 1104537600, none⟩ SCROBBLE_CUTOFF_TS :=
  fix_idempotent_within_offset_window _ (by decide)

/-- C5 (violated by the code): the line `Artist\tAlbum\tTrack\t3\t215\tL\t978307200`
is valid under the claim's grammar (exactly 7 tab-separated fields, no 8th
field), yet parsing panics at `tokens[6]` because only six tab-terminated
tokens exist, so no record is produced and nothing can be serialized. -/
theorem seven_field_line_panics :
    Scrobble.new "Artist\tAlbum\tTrack\t3\t215\tL\t978307200" = .error Failure.panicked := by
  decide

/-- C5 amended: for every line the parser accepts, serializing the parsed
record and reparsing yields the same parse result as the original line. -/
theorem reparse_serialize_eq_parse :
    ∀ (L : String) (r : Scrobble), Scrobble.new L = .ok r →
      Scrobble.new (Scrobble.serialize r) = Scrobble.new L := by
  intro L r h
  rw [h]
  exact roundtrip_of_wf r (new_ok_wf h)

/-- Witness for C5's amended claim on the spec's example line. -/
theorem reparse_serialize_eq_parse_witness :
    Scrobble.new (Scrobble.serialize ⟨"Artist", "Album", "Track", some 3, 215, .listened,
        978307200, some "abc123"⟩)
      = Scrobble.new "Artist\tAlbum\tTrack\t3\t215\tL\t978307200\tabc123" :=
  reparse_serialize_eq_parse _ _ (by decide)

/-- C6 (violated by the code): on a line whose trailing remainder contains
a tab, the parser keeps only the text after the last tab as the track
identifier and silently discards the token before it. -/
theorem track_id_drops_interior_token :
    Scrobble.new "a\tb\tc\t3\t215\tL\t978307200\tabc\t123"
      = .ok ⟨"a", "b", "c", some 3, 215, .listened, 978307200, some "123"⟩ ∧
    (Scrobble.mk "a" "b" "c" (some 3) 215 .listened 978307200 (some "123")).track_id
      ≠ some ("abc" ++ "\t" ++ "123") := by
  decide

/-- C6 amended: for every successfully parsed line, the track identifier is
the piece of the line after its last tab (empty means absent); that piece
is tab-free and the line decomposes as a prefix, a tab, and that piece. -/
theorem track_id_is_piece_after_last_tab :
    ∀ (L : String) (r : Scrobble), Scrobble.new L = .ok r →
      r.track_id = decodeTrackId (String.mk ((splitTabs L.data).getLastD [])) ∧
      '\t' ∉ (splitTabs L.data).getLastD [] ∧
      ∃ pre, L.data = pre ++ '\t' :: (splitTabs L.data).getLastD [] := by
  intro L r h
  obtain ⟨toks, rest, hp, h0, h1, h2, hq3, hq4, hq5, hq6, hid⟩ := new_ok_inv h
  obtain ⟨hlen, htoks, hrest⟩ := parse_scrobble_tokens_inv L toks rest hp
  have parts_ne : splitTabs L.data ≠ [] := splitTabs_ne_nil _
  refine ⟨by rw [hid, hrest], mem_splitTabs_tab_free _ _ (getLastD_mem _ parts_ne), ?_⟩
  have hjoin : joinTabs (splitTabs L.data) = L.data := joinTabs_splitTabs _
  have hshape : (splitTabs L.data).dropLast ++ [(splitTabs L.data).getLast parts_ne]
      = splitTabs L.data := List.dropLast_concat_getLast parts_ne
  have hlastD : (splitTabs L.data).getLastD [] = (splitTabs L.data).getLast parts_ne :=
    getLastD_eq_getLast _ parts_ne
  have hinit_ne : (splitTabs L.data).dropLast ≠ [] := by
    have hdl : (splitTabs L.data).dropLast.length = (splitTabs L.data).length - 1 :=
      List.length_dropLast _
    intro hnil
    rw [hnil] at hdl
    simp at hdl
    omega
  obtain ⟨pre, hpre⟩ := joinTabs_append_last _ _ hinit_ne
  refine ⟨pre, ?_⟩
  rw [hlastD]
  calc L.data = joinTabs (splitTabs L.data) := hjoin.symm
    _ = joinTabs ((splitTabs L.data).dropLast ++ [(splitTabs L.data).getLast parts_ne]) := by
        rw [hshape]
    _ = pre ++ '\t' :: (splitTabs L.data).getLast parts_ne := hpre

/-- Witness for C6's amended claim on the interior-tab line. -/
theorem track_id_is_piece_after_last_tab_witness :
    (some "123" : Option String)
      = decodeTrackId (String.mk
          ((splitTabs ("a\tb\tc\t3\t215\tL\t978307200\tabc\t123" : String).data).getLastD [])) ∧
    '\t' ∉ (splitTabs ("a\tb\tc\t3\t215\tL\t978307200\tabc\t123" : String).data).getLastD [] ∧
    ∃ pre, ("a\tb\tc\t3\t215\tL\t978307200\tabc\t123" : String).data
        = pre ++ '\t'
          :: (splitTabs ("a\tb\tc\t3\t215\tL\t978307200\tabc\t123" : String).data).getLastD [] :=
  track_id_is_piece_after_last_tab _
    ⟨"a", "b", "c", some 3, 215, .listened, 978307200, some "123"⟩ (by decide)

/-- C7: serializing any record the parser produced and parsing again gives
back the identical record, field for field. -/
theorem parse_serialize_roundtrip :
    ∀ (L : String) (r : Scrobble), Scrobble.new L = .ok r →
      Scrobble.new (Scrobble.serialize r) = .ok r := by
  intro L r h
  exact roundtrip_of_wf r (new_ok_wf h)

/-- Witness for C7 on a line with both optional fields absent. -/
theorem parse_serialize_roundtrip_witness :
    Scrobble.new (Scrobble.serialize ⟨"Artist", "Album", "Track", none, 215, .skipped,
        978307200, none⟩)
      = .ok ⟨"Artist", "Album", "Track", none, 215, .skipped, 978307200, none⟩ :=
  parse_serialize_roundtrip "Artist\tAlbum\tTrack\t\t215\tS\t978307200\t" _ (by decide)

/-- C8 (violated by the code): with the track identifier absent the
serializer emits the empty 8th value after the 7th separator, so the line
does end with a tab character. -/
theorem serialize_trailing_tab_when_id_absent :
    Scrobble.serialize ⟨"a", "b", "c", none, 215, .listened, 0, none⟩ = "a\tb\tc\t\t215\tL\t0\t" ∧
    (Scrobble.serialize ⟨"a", "b", "c", none, 215, .listened, 0, none⟩).data.getLast?
      = some '\t' := by
  decide

/-- C8 amended: the serialized line is exactly the eight field renderings
(absent options rendered empty) joined by single tabs, with nothing
appended after the 8th value; consequently, when the track identifier is
absent the line ends with the tab that precedes the empty 8th value. -/
theorem serialize_structure :
    ∀ r : Scrobble,
      (Scrobble.serialize r).data
        = r.artist.data ++ '\t' :: (r.album.data ++ '\t' :: (r.track.data ++ '\t' ::
            ((match r.track_position with
              | none => []
              | some p => natDigits p) ++ '\t' ::
              (natDigits r.song_duration ++ '\t' :: (r.rating.toStr.data ++ '\t' ::
                (intToChars r.timestamp ++ '\t' ::
                  (match r.track_id with
                   | none => []
                   | some id => id.data))))))) ∧
      (r.track_id = none → ∃ pre, (Scrobble.serialize r).data = pre ++ ['\t']) := by
  intro r
  refine ⟨serialize_data r, fun hnone => ?_⟩
  refine ⟨r.artist.data ++ '\t' :: (r.album.data ++ '\t' :: (r.track.data ++ '\t' ::
      ((match r.track_position with
        | none => []
        | some p => natDigits p) ++ '\t' ::
        (natDigits r.song_duration ++ '\t' :: (r.rating.toStr.data ++ '\t' ::
          intToChars r.timestamp))))), ?_⟩
  rw [serialize_data r, hnone]
  simp [List.append_assoc]

/-- Witness for C8's amended claim at a record without a track id. -/
theorem serialize_structure_witness :
    ∃ pre, (Scrobble.serialize ⟨"a", "b", "c", none, 215, .listened, 0, none⟩).data
        = pre ++ ['\t'] :=
  (serialize_structure _).2 rfl

/-- C9: a successfully parsed record's 6th field was exactly "L" (decoded
to Listened) or exactly "S" (decoded to Skipped), and lines whose 6th
field is "X" or empty fail with the rating parse error. -/
theorem rating_field_L_or_S :
    (∀ (L : String) (r : Scrobble), Scrobble.new L = .ok r →
      ∃ toks rest, parse_scrobble_tokens L = some (toks, rest) ∧
        ((toks.get? 5 = some "L" ∧ r.rating = .listened) ∨
         (toks.get? 5 = some "S" ∧ r.rating = .skipped))) ∧
    Scrobble.new "a\tb\tc\t3\t215\tX\t978307200\t" = .error (.parseError .ratingErr) ∧
    Scrobble.new "a\tb\tc\t3\t215\t\t978307200\t" = .error (.parseError .ratingErr) := by
  refine ⟨?_, by decide, by decide⟩
  intro L r h
  obtain ⟨toks, rest, hp, h0, h1, h2, hq3, hq4, ⟨t5, h5, hdr⟩, hq6, hid⟩ := new_ok_inv h
  refine ⟨toks, rest, hp, ?_⟩
  rcases decodeRating_ok_inv t5 r.rating hdr with ⟨hs, hv⟩ | ⟨hs, hv⟩
  · rw [hs] at h5
    exact Or.inl ⟨h5, hv⟩
  · rw [hs] at h5
    exact Or.inr ⟨h5, hv⟩

/-- Witness for C9's universal part on a Listened line. -/
theorem rating_field_L_or_S_witness :
    ∃ toks rest,
      parse_scrobble_tokens "a\tb\tc\t3\t215\tL\t978307200\t" = some (toks, rest) ∧
      ((toks.get? 5 = some "L" ∧ Rating.listened = .listened) ∨
       (toks.get? 5 = some "S" ∧ Rating.listened = .skipped)) :=
  rating_field_L_or_S.1 _ ⟨"a", "b", "c", some 3, 215, .listened, 978307200, none⟩ (by decide)

/-- C10: the line's first six fields decode, its 7th field parses as the
signed 64-bit integer i64::MAX, but that value is outside chrono's
representable instant range, so `Scrobble::new` panics (the `unwrap` on
`timestamp_opt`) instead of returning an error value. -/
theorem new_panics_on_out_of_range_timestamp :
    parseI64 "9223372036854775807" = some (2 ^ 63 - 1) ∧
    chronoTsInRange (2 ^ 63 - 1) = false ∧
    Scrobble.new "a\tb\tc\t\t215\tL\t9223372036854775807\t" = .error Failure.panicked := by
  decide
